import Mathlib

/-!
Shallow embedding of the xmas_tree effect-generation engine
(src/xmas_tree_gen/src/main.rs) in Lean 4.

Modelling conventions:
* f32 values are modelled by exact rationals.  Decimal f32 literals of the
  source (0.45, 0.15, 0.05, 0.00002, ...) are modelled by the corresponding
  exact rationals; the f32 constant std::f32::consts::PI is modelled by the
  exact value of that constant, 13176795 / 4194304.
* Rust usize arithmetic is Nat arithmetic.  A usize division whose divisor
  can be zero panics in Rust; functions containing such a division (or an
  .unwrap() on an empty-cloud maximum, or a slice index that can be out of
  bounds) are modelled as Option-valued, returning none exactly where the
  Rust code would panic.
* f32::floor is Int.floor, the cast `as usize` is truncation toward zero
  saturating at 0, f32::fract and the f32 % operator truncate toward zero,
  exactly as in Rust.
* The transcendental f32 operations (sin, atan2, sin_cos, powf) have no
  exact rational counterpart; the effects that use them take the
  corresponding function as an explicit parameter, and every theorem about
  those effects holds for an arbitrary such parameter.
* The seeded Fisher-Yates shuffle of the rand crate (StdRng::seed_from_u64)
  is a fixed deterministic list permutation; twinkle takes it as an explicit
  function parameter.
-/

/-- A 3D point of the LED cloud: the Rust type (f32, f32, f32). -/
abbrev Coord : Type := ℚ × ℚ × ℚ

/-- An RGB color: the Rust type (f32, f32, f32). -/
abbrev Color : Type := ℚ × ℚ × ℚ

/-- Truncation toward zero, the rounding used by f32::trunc, f32::fract and
the f32 remainder operator. -/
def ratTrunc (q : ℚ) : ℤ := if 0 ≤ q then ⌊q⌋ else ⌈q⌉

/-- f32::fract: self - self.trunc(), keeping the sign of self. -/
def rustFract (q : ℚ) : ℚ := q - (ratTrunc q : ℚ)

/-- The f32 % operator: a - b * (a/b).trunc(). -/
def fRem (a b : ℚ) : ℚ := a - b * (ratTrunc (a / b) : ℚ)

/-- The Rust cast from f32 to usize: truncation toward zero, saturating
at 0 for non-positive inputs. -/
def floatToUsize (q : ℚ) : ℕ := if q ≤ 0 then 0 else (⌊q⌋).toNat

/-- The f32 constant std::f32::consts::PI (exact value of the nearest
binary32 float to pi). -/
def PI32 : ℚ := 13176795 / 4194304

/-- The z coordinate of a point. -/
def coordZ (c : Coord) : ℚ := c.2.2

/-- coords.iter().map(|coord| coord.2).reduce(f32::max): the maximum z of
the cloud, none for an empty cloud (where the source would unwrap-panic). -/
def maxZ : List Coord → Option ℚ
  | [] => none
  | c :: rest => some (rest.foldl (fun m c2 => max m (coordZ c2)) (coordZ c))

/-- Scaling a color by a brightness factor, as written in the source:
(color.0 * f, color.1 * f, color.2 * f). -/
def colorScale (c : Color) (f : ℚ) : Color := (c.1 * f, c.2.1 * f, c.2.2 * f)

/-- saturated_color (main.rs:88-103): the 6-sector piecewise-linear hue
wheel at full saturation. -/
def saturated_color (hue : ℚ) : Color :=
  let r := rustFract hue * 6
  if r < 1 then (1, r, 0)
  else if r < 2 then (2 - r, 1, 0)
  else if r < 3 then (0, 1, r - 2)
  else if r < 4 then (0, 4 - r, 1)
  else if r < 5 then (r - 4, 0, 1)
  else (1, 0, 6 - r)

/-- lerp (main.rs:260-262). -/
def lerp (a b c : ℚ) : ℚ := a * (1 - c) + b * c

/-! ## barber_pole (main.rs:70-86)

The f32 sine and atan2 are abstract parameters s and a2. -/

/-- desired_speed of barber_pole. -/
def barberDesiredSpeed : ℚ := 1 / 20

/-- complete_cycles of barber_pole:
((total_frames as f32 * desired_speed) / (PI * 2.0)).floor(). -/
def barberCompleteCycles (tf : ℕ) : ℚ :=
  (⌊((tf : ℚ) * barberDesiredSpeed) / (PI32 * 2)⌋ : ℤ)

/-- actual_speed of barber_pole: (complete_cycles * PI * 2.0) / total_frames. -/
def barberActualSpeed (tf : ℕ) : ℚ := barberCompleteCycles tf * PI32 * 2 / (tf : ℚ)

/-- offset of barber_pole at a frame: frame as f32 * actual_speed. -/
def barberOffset (frame tf : ℕ) : ℚ := (frame : ℚ) * barberActualSpeed tf

/-- barber_pole (main.rs:70-86); s models f32::sin, a2 models f32::atan2. -/
def barber_pole (s : ℚ → ℚ) (a2 : ℚ → ℚ → ℚ) (coords : List Coord)
    (frame tf : ℕ) : List Color :=
  coords.map fun c =>
    let angle := a2 c.1 c.2.1 + c.2.2 * 5 + barberOffset frame tf
    if 0 < s angle then (1, 0, 0) else (1/2, 1/2, 1/2)

/-! ## fill_up (main.rs:105-121)

total_frames / complete_fills is a usize division: when complete_fills = 0
(total_frames < 60) Rust panics, modelled as none.  The unwrap on the
empty-cloud maximum is modelled as none as well. -/

/-- fill_up (main.rs:105-121). -/
def fill_up (coords : List Coord) (frame tf : ℕ) : Option (List Color) :=
  let complete_fills := tf / 60
  if complete_fills = 0 then none
  else
    match maxZ coords with
    | none => none
    | some max_height =>
      let frames_per_fill := tf / complete_fills
      let color_seed0 := frame * complete_fills / tf
      let color_seed1 := (color_seed0 + 1) % complete_fills
      let color0 := saturated_color ((color_seed0 : ℚ) * (9/20))
      let color1 := saturated_color ((color_seed1 : ℚ) * (9/20))
      let base_frame := color_seed0 * tf / complete_fills
      let height := ((frame - base_frame : ℕ) : ℚ) * max_height / (frames_per_fill : ℚ)
      some (coords.map fun c => if height < c.2.2 then color0 else color1)

/-! ## snake (main.rs:123-137) -/

/-- The brightness ramp of snake: 1.0 - index as f32 / snake_len as f32. -/
def snakeBrightness (index : ℕ) : ℚ := 1 - (index : ℚ) / 20

/-- snake (main.rs:123-137). -/
def snake (coords : List Coord) (frame _tf : ℕ) : List Color :=
  let color := saturated_color ((frame : ℚ) / 60)
  (List.range coords.length).map fun i =>
    let index := (i + frame) % coords.length
    if index < 20 then colorScale color (snakeBrightness index)
    else (0, 0, 0)

/-! ## fall_down (main.rs:139-184) and fall_down_rainbow (main.rs:186-237)

Both effects derive the same physical constants and quantize the cycle the
same way; their falling-layer loops are embedded separately, mirroring the
duplicated source loops. -/

/-- fall_speed of the falling effects: 0.15. -/
def fallSpeed : ℚ := 3 / 20

/-- pause_frames of the falling effects, used as f32 in the source. -/
def pauseFrames : ℚ := 10

/-- layer_height = max_height / (num_layers as f32), num_layers = 8. -/
def layerHeight (mh : ℚ) : ℚ := mh / 8

/-- total_dist = (max_height + layer_height) * (num_layers as f32) * 0.5
+ max_height. -/
def totalDist (mh : ℚ) : ℚ := (mh + layerHeight mh) * 8 * (1/2) + mh

/-- frames_per_cycle = pause_frames * (num_layers + 1.0)
+ total_dist / fall_speed. -/
def framesPerCycle (mh : ℚ) : ℚ := pauseFrames * (8 + 1) + totalDist mh / fallSpeed

/-- total_cycles = (total_frames as f32 / frames_per_cycle).floor(). -/
def fdTotalCycles (mh : ℚ) (tf : ℕ) : ℚ := (⌊(tf : ℚ) / framesPerCycle mh⌋ : ℤ)

/-- scaling_factor = frames_per_cycle / actual_frames_per_cycle, where
actual_frames_per_cycle = total_frames as f32 / total_cycles. -/
def fdScalingFactor (mh : ℚ) (tf : ℕ) : ℚ :=
  framesPerCycle mh / ((tf : ℚ) / fdTotalCycles mh tf)

/-- The falling-layer loop of fall_down (main.rs:159-172): iterates over the
layer indices, carrying scaled_frame and base_level, and returns the final
(base_level, layer_level_min, layer_level_max).  On break the source sets
scaled_frame to 0, so the post-loop line base_level -= scaled_frame *
fall_speed only acts on the fall-through path, where layer_level_min and
layer_level_max keep their pre-loop value 0. -/
def fdLoop (mh : ℚ) : List ℕ → ℚ → ℚ → ℚ × ℚ × ℚ
  | [], sf, base => (base - sf * fallSpeed, 0, 0)
  | layer :: rest, sf, base =>
    let num_frames := (mh - layerHeight mh * (layer : ℚ)) / fallSpeed + pauseFrames
    if sf < num_frames then
      let llmin := max (mh - sf * fallSpeed) base
      (base, llmin, llmin + layerHeight mh)
    else fdLoop mh rest (sf - num_frames) (base + layerHeight mh)

/-- fall_down (main.rs:139-184); none exactly when the source would panic
(unwrap on the maximum of an empty cloud). -/
def fall_down (coords : List Coord) (frame tf : ℕ) : Option (List Color) :=
  (maxZ coords).map fun mh =>
    let scaled_frame := (frame : ℚ) * fdScalingFactor mh tf
    let cycle := (⌊scaled_frame / framesPerCycle mh⌋ : ℤ)
    let color := saturated_color ((cycle : ℚ) * (9/20))
    let sf := fRem scaled_frame (framesPerCycle mh)
    let g := fdLoop mh (List.range 8) sf 0
    coords.map fun c =>
      if c.2.2 < g.1 ∨ (g.2.1 ≤ c.2.2 ∧ c.2.2 < g.2.2) then color else (0, 0, 0)

/-- The falling-layer loop of fall_down_rainbow (main.rs:209-223): same as
fdLoop but additionally returns current_layer (0 on the fall-through path,
as in the source initialisation). -/
def fdrLoop (mh : ℚ) : List ℕ → ℚ → ℚ → ℚ × ℚ × ℚ × ℕ
  | [], sf, base => (base - sf * fallSpeed, 0, 0, 0)
  | layer :: rest, sf, base =>
    let num_frames := (mh - layerHeight mh * (layer : ℚ)) / fallSpeed + pauseFrames
    if sf < num_frames then
      let llmin := max (mh - sf * fallSpeed) base
      (base, llmin, llmin + layerHeight mh, layer)
    else fdrLoop mh rest (sf - num_frames) (base + layerHeight mh)

/-- Mapping a fallible function over a list, failing if any element fails:
models a Rust loop whose body can panic (here: slice indexing). -/
def listMapOption (f : α → Option β) : List α → Option (List β)
  | [] => some []
  | a :: rest =>
    match f a, listMapOption f rest with
    | some b, some bs => some (b :: bs)
    | _, _ => none

/-- fall_down_rainbow (main.rs:186-237); none when the source would panic:
unwrap on an empty cloud, or the index colors[(coord.2 / layer_height) as
usize] falling outside the 8-element colors vector. -/
def fall_down_rainbow (coords : List Coord) (frame tf : ℕ) : Option (List Color) :=
  match maxZ coords with
  | none => none
  | some mh =>
    let scaled_frame := (frame : ℚ) * fdScalingFactor mh tf
    let cycle := (⌊scaled_frame / framesPerCycle mh⌋ : ℤ)
    let colors := (List.range 8).map fun (layer : ℕ) =>
      saturated_color (((layer : ℚ) + 8 * (cycle : ℚ)) * (9/20))
    let sf := fRem scaled_frame (framesPerCycle mh)
    let g := fdrLoop mh (List.range 8) sf 0
    listMapOption (fun c =>
      if c.2.2 < g.1 then colors.get? (floatToUsize (c.2.2 / layerHeight mh))
      else if g.2.1 ≤ c.2.2 ∧ c.2.2 < g.2.2.1 then colors.get? g.2.2.2
      else some (0, 0, 0)) coords

/-! ## accelerate (main.rs:239-258)

(frame as f32).powf(2.2) is transcendental; the function pw models it. -/

/-- accelerate (main.rs:239-258); pw models the f32 map x to x.powf(2.2). -/
def accelerate (pw : ℚ → ℚ) (coords : List Coord) (frame _tf : ℕ) :
    Option (List Color) :=
  (maxZ coords).map fun mh =>
    let base_dist := (1/50000) * pw (frame : ℚ)
    let level_height := mh / 4
    let double_height := level_height * 2
    coords.map fun c =>
      let dist := base_dist + c.2.2
      let color_index := floatToUsize (dist / double_height)
      if fRem dist double_height < level_height then
        saturated_color ((color_index : ℚ) * (9/20))
      else (0, 0, 0)

/-! ## roll_around (main.rs:264-314)

frames_per_cycle = frames_per_rotation * rotations_per_cycle = 60 * 8 = 480.
total_frames / num_cycles is a usize division: when num_cycles = 0
(total_frames < 480) Rust panics, modelled as none.  sin_cos is the
abstract parameter sc, returning (sin, cos). -/

/-- num_cycles of roll_around: total_frames / frames_per_cycle (usize). -/
def rollNumCycles (tf : ℕ) : ℕ := tf / 480

/-- actual_frames of roll_around: total_frames / num_cycles (usize);
meaningful only when rollNumCycles is nonzero. -/
def rollActualFrames (tf : ℕ) : ℕ := tf / rollNumCycles tf

/-- scaling_factor of roll_around: actual_frames as f32 / total_frames. -/
def rollScalingFactor (tf : ℕ) : ℚ := (rollActualFrames tf : ℚ) / (tf : ℚ)

/-- The keyframe table angle_values of roll_around. -/
def angleValues : List ℚ :=
  [PI32 * (1/2), PI32 * (1/2), 0, 0, PI32 * (-(1/2)), PI32 * (-(1/2)), 0, 0]

/-- roll_around (main.rs:264-314); sc models f32::sin_cos. -/
def roll_around (sc : ℚ → ℚ × ℚ) (coords : List Coord) (frame tf : ℕ) :
    Option (List Color) :=
  if rollNumCycles tf = 0 then none
  else
    (maxZ coords).map fun mh =>
      let scaled_frame := fRem ((frame : ℚ) * rollScalingFactor tf) 480
      let rotation_progress := scaled_frame / 60
      let rotation_index := floatToUsize rotation_progress
      let lerp_factor := min (rustFract rotation_progress * 2) 1
      let z_angle_start := angleValues.getD rotation_index 0
      let z_angle_end := angleValues.getD ((rotation_index + 1) % 8) 0
      let x_angle_start := z_angle_end
      let x_angle_end := angleValues.getD ((rotation_index + 2) % 8) 0
      let z_angle := lerp z_angle_start z_angle_end lerp_factor
      let x_angle := lerp x_angle_start x_angle_end lerp_factor
      let z_offset := mh / 2
      let z_sc := sc z_angle
      let x_sc := sc x_angle
      coords.map fun c0 =>
        let c1 : Coord := (c0.1, c0.2.1, c0.2.2 - z_offset)
        let c2 : Coord :=
          (c1.1 * z_sc.2 - c1.2.1 * z_sc.1, c1.1 * z_sc.1 + c1.2.1 * z_sc.2, c1.2.2)
        let c3 : Coord :=
          (c2.1, c2.2.1 * x_sc.2 - c2.2.2 * x_sc.1, c2.2.1 * x_sc.1 + c2.2.2 * x_sc.2)
        let quadrant : ℕ :=
          (if 0 < c3.1 then 1 else 0) + (if 0 < c3.2.1 then 2 else 0) +
            (if 0 < c3.2.2 then 4 else 0)
        saturated_color ((quadrant : ℚ) * (9/20))

/-! ## twinkle (main.rs:316-337)

The phases vector is (0..coords.len()).map(|i| i % num_phases) shuffled by
a StdRng seeded with the constant 42; the shuffle is the abstract function
parameter shuffle (a fixed deterministic permutation of its input since the
seed is a constant).  The f32 sine is the abstract parameter s. -/

/-- The phase-class vector of twinkle: the shuffled (i mod 4) vector, a
function of the point count alone. -/
def twinklePhases (shuffle : List ℕ → List ℕ) (n : ℕ) : List ℕ :=
  shuffle ((List.range n).map (· % 4))

/-- The per-phase color of twinkle at a frame (body of the closure at
main.rs:326-335). -/
def twinklePointColor (s : ℚ → ℚ) (frame tf : ℕ) (phase : ℕ) : Color :=
  let phase_color := saturated_color ((phase : ℚ) * (3/10))
  let phase_angle := (phase : ℚ) * PI32 * 2 / 4 - (frame : ℚ) * PI32 * 6 / (tf : ℚ)
  let brightness := max (s phase_angle) 0
  colorScale phase_color brightness

/-- twinkle (main.rs:316-337). -/
def twinkle (s : ℚ → ℚ) (shuffle : List ℕ → List ℕ) (coords : List Coord)
    (frame tf : ℕ) : List Color :=
  (shuffle ((List.range coords.length).map (· % 4))).map
    (twinklePointColor s frame tf)

/-! ## The sequence driver (main.rs:57-65)

For each frame in 0..len, main writes one output row computed by the
selected effect; there is no emptiness check on the point cloud. -/

/-- The frame rows produced by the main loop for a total effect. -/
def sequenceRows (eff : List Coord → ℕ → ℕ → List Color)
    (coords : List Coord) (len : ℕ) : List (List Color) :=
  (List.range len).map fun frame => eff coords frame len

/-! ## CycleSynchronizer as worded by the spec

Modelled from the spec: section 4.2 gives the contract
cycle_count = floor(total_frames / nominal_frames_per_cycle) and
scaling_factor = (nominal_frames_per_cycle * cycle_count) / total_frames.
These definitions follow the spec words, for comparison with the
quantities the source actually computes. -/

/-- Modelled from the spec: the cycle count of the CycleSynchronizer
contract in section 4.2. -/
def specCycleCount (nominal : ℚ) (tf : ℕ) : ℚ := (⌊(tf : ℚ) / nominal⌋ : ℤ)

/-- Modelled from the spec: the scaling factor of the CycleSynchronizer
contract in section 4.2. -/
def specScalingFactor (nominal : ℚ) (tf : ℕ) : ℚ :=
  nominal * specCycleCount nominal tf / (tf : ℚ)

/-! ## General lemmas -/

theorem range_eight : List.range 8 = [0, 1, 2, 3, 4, 5, 6, 7] := rfl

theorem ratTrunc_add_one (h : ℚ) (hh : 0 ≤ h) : ratTrunc (h + 1) = ratTrunc h + 1 := by
  unfold ratTrunc
  rw [if_pos hh, if_pos (by linarith)]
  exact_mod_cast Int.floor_add_one h

theorem rustFract_add_one (h : ℚ) (hh : 0 ≤ h) : rustFract (h + 1) = rustFract h := by
  unfold rustFract
  rw [ratTrunc_add_one h hh]
  push_cast
  ring

/-- Every value of the hue wheel has some channel equal to 1. -/
theorem sat_unit_channel (h : ℚ) :
    (saturated_color h).1 = 1 ∨ (saturated_color h).2.1 = 1 ∨
      (saturated_color h).2.2 = 1 := by
  unfold saturated_color
  dsimp only
  split_ifs <;> simp

/-- The hue wheel never returns black. -/
theorem sat_ne_black (h : ℚ) : saturated_color h ≠ ((0:ℚ), 0, 0) := by
  rcases sat_unit_channel h with hc | hc | hc <;>
    · intro he
      rw [he] at hc
      norm_num at hc

/-- Scaling a color with a unit channel by a nonzero factor is not black. -/
theorem colorScale_ne_black {c : Color} {f : ℚ} (hf : f ≠ 0)
    (hc : c.1 = 1 ∨ c.2.1 = 1 ∨ c.2.2 = 1) : colorScale c f ≠ ((0:ℚ), 0, 0) := by
  intro he
  unfold colorScale at he
  rw [Prod.ext_iff, Prod.ext_iff] at he
  rcases hc with h1 | h1 | h1 <;> rw [h1, one_mul] at he <;> tauto

theorem fRem_zero (b : ℚ) : fRem 0 b = 0 := by
  unfold fRem ratTrunc
  norm_num

theorem fRem_self (b : ℚ) (hb : b ≠ 0) : fRem b b = 0 := by
  unfold fRem ratTrunc
  rw [div_self hb]
  norm_num

/-! ## Claim C5: period of the hue wheel -/

/-- C5 counterexample: the hue wheel is not 1-periodic at a negative hue.
Rust f32::fract truncates toward zero, so fract(-1/2) = -1/2 while
fract(1/2) = 1/2, giving different colors. -/
theorem saturated_color_period_cex :
    saturated_color (-(1/2) + 1) ≠ saturated_color (-(1/2)) := by
  have hc : (⌈(-(1/2) : ℚ)⌉ : ℤ) = 0 := by norm_num
  norm_num [saturated_color, rustFract, ratTrunc, hc]

/-- C5 (amended): for every nonnegative hue h, saturated_color (h + 1) and
saturated_color h return identical color triples. -/
theorem saturated_color_period (h : ℚ) (hh : 0 ≤ h) :
    saturated_color (h + 1) = saturated_color h := by
  simp only [saturated_color, rustFract_add_one h hh]

/-- Witness for C5 at h = 5/4. -/
theorem saturated_color_period_witness :
    0 ≤ (5/4 : ℚ) ∧ saturated_color ((5/4 : ℚ) + 1) = saturated_color (5/4) :=
  ⟨by norm_num, saturated_color_period (5/4) (by norm_num)⟩

/-! ## Claim C7: barber-pole output set -/

/-- C7: for every point cloud, frame index and total frame count (and every
model of the f32 sine and atan2), every output color of barber_pole is
either (1,0,0) or (0.5,0.5,0.5). -/
theorem barber_pole_colors (s : ℚ → ℚ) (a2 : ℚ → ℚ → ℚ) (coords : List Coord)
    (frame tf : ℕ) (c : Color) (hc : c ∈ barber_pole s a2 coords frame tf) :
    c = ((1:ℚ), 0, 0) ∨ c = ((1/2 : ℚ), 1/2, 1/2) := by
  simp only [barber_pole, List.mem_map] at hc
  obtain ⟨p, -, hp⟩ := hc
  by_cases hcond : 0 < s (a2 p.1 p.2.1 + p.2.2 * 5 + barberOffset frame tf)
  · left
    rw [← hp, if_pos hcond]
  · right
    rw [← hp, if_neg hcond]

/-- Witness for C7: the gray output is obtained at the cloud [(0,0,0)] with
the zero sine model at frame 0. -/
theorem barber_pole_colors_witness :
    ((1/2 : ℚ), (1/2 : ℚ), (1/2 : ℚ)) = ((1:ℚ), 0, 0) ∨
      ((1/2 : ℚ), (1/2 : ℚ), (1/2 : ℚ)) = ((1/2 : ℚ), 1/2, 1/2) :=
  barber_pole_colors (fun _ => 0) (fun _ _ => 0) [((0:ℚ), 0, 0)] 0 1000 _
    (by norm_num [barber_pole, barberOffset])

/-! ## Claim C2: cycle quantization -/

/-- C2 counterexample: roll_around does not compute the spec scaling factor.
At total_frames = 1000 the source computes actual_frames = 1000 / (1000/480)
= 500 and scaling factor 500/1000 = 1/2, while the spec formula gives
480 * 2 / 1000 = 24/25. -/
theorem roll_scaling_cex :
    rollScalingFactor 1000 = 1/2 ∧ specScalingFactor 480 1000 = 24/25 := by
  constructor
  · norm_num [rollScalingFactor, rollActualFrames, rollNumCycles]
  · norm_num [specScalingFactor, specCycleCount]

/-- C2 (amended): barber_pole, fall_down and fall_down_rainbow follow the
CycleSynchronizer contract of the spec exactly: the cycle count is
floor(total_frames / nominal) and the scaling factor is nominal * count /
total_frames, and the simulation argument (barber_pole's offset, the falling
effects' scaled frame via fdScalingFactor) is frame * scaling_factor.
roll_around computes the cycle count by the contract but its scaling factor
is floor(total_frames / cycle_count) / total_frames instead. -/
theorem cycle_quantization (mh : ℚ) (frame tf : ℕ) :
    barberCompleteCycles tf = specCycleCount (PI32 * 2 / barberDesiredSpeed) tf
    ∧ barberOffset frame tf
        = barberDesiredSpeed *
            ((frame : ℚ) * specScalingFactor (PI32 * 2 / barberDesiredSpeed) tf)
    ∧ fdTotalCycles mh tf = specCycleCount (framesPerCycle mh) tf
    ∧ fdScalingFactor mh tf = specScalingFactor (framesPerCycle mh) tf
    ∧ (rollNumCycles tf : ℚ) = specCycleCount 480 tf := by
  have hb : barberCompleteCycles tf
      = specCycleCount (PI32 * 2 / barberDesiredSpeed) tf := by
    unfold barberCompleteCycles specCycleCount
    rw [div_div_eq_mul_div]
  refine ⟨hb, ?_, rfl, ?_, ?_⟩
  · rw [barberOffset, barberActualSpeed, hb]
    unfold specScalingFactor specCycleCount barberDesiredSpeed
    ring
  · unfold fdScalingFactor specScalingFactor specCycleCount fdTotalCycles
    rw [div_div_eq_mul_div]
  · unfold rollNumCycles specCycleCount
    have h2 : ⌊((tf : ℚ)) / 480⌋ = ((tf / 480 : ℕ) : ℤ) := by
      rw [Int.floor_eq_iff]
      constructor
      · rw [le_div_iff₀ (by norm_num : (0:ℚ) < 480)]
        exact_mod_cast Nat.div_mul_le_self tf 480
      · rw [div_lt_iff₀ (by norm_num : (0:ℚ) < 480)]
        exact_mod_cast (by omega : tf < (tf / 480 + 1) * 480)
    rw [h2, Int.cast_natCast]

/-! ## Claim C3: total frame count too short -/

/-- C3: with total_frames below the nominal cycle length the engine does not
surface a configuration error: fill_up (total_frames = 59 < 60) and
roll_around (total_frames = 400 < 480) hit a usize division by zero, which
panics in Rust (modelled as none). -/
theorem short_total_frames_panic :
    fill_up [((0:ℚ), 0, 1)] 0 59 = none
    ∧ roll_around (fun _ => ((0:ℚ), (0:ℚ))) [((0:ℚ), 0, 1)] 0 400 = none := by
  constructor
  · norm_num [fill_up]
  · norm_num [roll_around, rollNumCycles]

/-! ## Claim C4: empty point cloud -/

/-- C4: the engine does not reject an empty point cloud before frame
computation: the main loop happily produces all 1000 (empty) frame rows for
barber-pole, and for an effect that takes the cloud maximum (fill_up) the
unwrap panics during the computation of frame 0 (modelled as none) instead
of an up-front rejection. -/
theorem empty_cloud_not_rejected (s : ℚ → ℚ) (a2 : ℚ → ℚ → ℚ) :
    (sequenceRows (barber_pole s a2) [] 1000).length = 1000
    ∧ fill_up [] 0 1000 = none := by
  constructor
  · simp [sequenceRows]
  · norm_num [fill_up, maxZ]

/-! ## Claim C1: loop closure of the cyclic effects -/

/-- C1 counterexample: fill_up does not close the loop.  With the cloud
[(0,0,1)] and total_frames = 60 (one complete fill), the frame at index 60
colors the point with hue 0.45 while frame 0 colors it with hue 0. -/
theorem fill_up_loop_cex :
    fill_up [((0:ℚ), 0, 1)] 60 60 = some [((0:ℚ), 1, 7/10)]
    ∧ fill_up [((0:ℚ), 0, 1)] 0 60 = some [((1:ℚ), 0, 0)]
    ∧ fill_up [((0:ℚ), 0, 1)] 60 60 ≠ fill_up [((0:ℚ), 0, 1)] 0 60 := by
  refine ⟨?_, ?_, ?_⟩ <;>
    norm_num [fill_up, maxZ, coordZ, saturated_color, rustFract, ratTrunc]

/-- C1 (amended): roll_around, the cyclic effect with no per-cycle hue
advance, closes the loop whenever its nominal cycle length 480 divides
total_frames: the frame computed at index total_frames equals the frame at
index 0, for every point cloud and every model of sin_cos. -/
theorem roll_around_loop_closure (sc : ℚ → ℚ × ℚ) (coords : List Coord)
    (tf : ℕ) (hdvd : 480 ∣ tf) (hpos : 0 < tf) :
    roll_around sc coords tf tf = roll_around sc coords 0 tf := by
  obtain ⟨k, rfl⟩ := hdvd
  have hk : 0 < k := by omega
  have hnc : rollNumCycles (480 * k) = k := by
    unfold rollNumCycles
    exact Nat.mul_div_cancel_left k (by norm_num)
  have haf : rollActualFrames (480 * k) = 480 := by
    unfold rollActualFrames
    rw [hnc]
    exact Nat.mul_div_cancel 480 hk
  have hne : ((480 * k : ℕ) : ℚ) ≠ 0 := by
    have : (0 : ℚ) < ((480 * k : ℕ) : ℚ) := by exact_mod_cast hpos
    linarith
  have hmain : ((480 * k : ℕ) : ℚ) * rollScalingFactor (480 * k) = 480 := by
    unfold rollScalingFactor
    rw [haf]
    field_simp
  have h480 : fRem (((480 * k : ℕ) : ℚ) * rollScalingFactor (480 * k)) 480 = 0 := by
    rw [hmain]
    exact fRem_self 480 (by norm_num)
  have h0 : fRem (((0 : ℕ) : ℚ) * rollScalingFactor (480 * k)) 480 = 0 := by
    norm_num [fRem_zero]
  simp only [roll_around, h480, h0]

/-! ## Claim C6: snake lights exactly a 20-window -/

theorem rot_mod_cancel (N x f : ℕ) (hN : 0 < N) (hx : x < N) :
    (x + f + (N - f % N)) % N = x := by
  have hdm : N * (f / N) + f % N = f := Nat.div_add_mod f N
  have hrN : f % N < N := Nat.mod_lt _ hN
  have hstep : x + f + (N - f % N) = x + N + N * (f / N) := by
    generalize N * (f / N) = t at hdm ⊢
    omega
  rw [hstep, Nat.add_mul_mod_self_left, Nat.add_mod_right, Nat.mod_eq_of_lt hx]

/-- Rotating the index window: the map i to (i + f) mod N is a bijection of
range N, so the window condition (i + f) mod N < 20 holds for exactly
min 20 N indices. -/
theorem rot_window_card (N f : ℕ) (hN : 0 < N) :
    ((Finset.range N).filter (fun i => (i + f) % N < 20)).card = min 20 N := by
  have hinv : ∀ b, b < N → ((b + (N - f % N)) % N + f) % N = b := by
    intro b hb
    rw [Nat.mod_add_mod, Nat.add_right_comm]
    exact rot_mod_cancel N b f hN hb
  have key : ((Finset.range N).filter (fun i => (i + f) % N < 20)).card
      = ((Finset.range N).filter (fun j => j < 20)).card := by
    apply Finset.card_nbij' (fun i => (i + f) % N) (fun b => (b + (N - f % N)) % N)
    · intro a ha
      simp only [Finset.mem_filter, Finset.mem_range] at ha ⊢
      exact ⟨Nat.mod_lt _ hN, ha.2⟩
    · intro b hb
      simp only [Finset.mem_filter, Finset.mem_range] at hb ⊢
      refine ⟨Nat.mod_lt _ hN, ?_⟩
      rw [hinv b hb.1]
      exact hb.2
    · intro a ha
      simp only [Finset.mem_filter, Finset.mem_range] at ha
      rw [Nat.mod_add_mod]
      exact rot_mod_cancel N a f hN ha.1
    · intro b hb
      simp only [Finset.mem_filter, Finset.mem_range] at hb
      exact hinv b hb.1
  rw [key, show (Finset.range N).filter (fun j => j < 20) = Finset.range (min 20 N) from
    by ext x; simp only [Finset.mem_filter, Finset.mem_range, Finset.mem_inter]; omega,
    Finset.card_range]

theorem snake_get (coords : List Coord) (frame tf i : ℕ) (hi : i < coords.length) :
    (snake coords frame tf).get? i
      = some (if (i + frame) % coords.length < 20 then
          colorScale (saturated_color ((frame : ℚ) / 60))
            (snakeBrightness ((i + frame) % coords.length))
        else ((0:ℚ), 0, 0)) := by
  simp only [snake]
  rw [List.get?_map, List.get?_range hi]
  rfl

theorem snakeBrightness_ne_zero (w : ℕ) (hw : w < 20) : snakeBrightness w ≠ 0 := by
  unfold snakeBrightness
  intro h
  have h20 : (w : ℚ) = 20 := by linarith
  have : w = 20 := by exact_mod_cast h20
  omega

/-- C6: for every non-empty cloud of N points and every frame, snake lights
exactly min 20 N points: the indices inside the sliding window get the frame
hue scaled by the strictly decreasing window brightness (never black), and
every other index gets exactly (0,0,0). -/
theorem snake_claim (coords : List Coord) (frame tf : ℕ) (hne : coords ≠ []) :
    ((Finset.range coords.length).filter
        (fun i => (snake coords frame tf).get? i ≠ some ((0:ℚ), 0, 0))).card
      = min 20 coords.length
    ∧ (∀ i, i < coords.length → (i + frame) % coords.length < 20 →
        (snake coords frame tf).get? i
          = some (colorScale (saturated_color ((frame : ℚ) / 60))
              (snakeBrightness ((i + frame) % coords.length)))
        ∧ (snake coords frame tf).get? i ≠ some ((0:ℚ), 0, 0))
    ∧ (∀ w1 w2 : ℕ, w1 < w2 → w2 < 20 →
        snakeBrightness w2 < snakeBrightness w1)
    ∧ (∀ i, i < coords.length → ¬ (i + frame) % coords.length < 20 →
        (snake coords frame tf).get? i = some ((0:ℚ), 0, 0)) := by
  have hN : 0 < coords.length := List.length_pos.mpr hne
  have hlit : ∀ i, i < coords.length → (i + frame) % coords.length < 20 →
      (snake coords frame tf).get? i
        = some (colorScale (saturated_color ((frame : ℚ) / 60))
            (snakeBrightness ((i + frame) % coords.length))) := by
    intro i hi hw
    rw [snake_get coords frame tf i hi, if_pos hw]
  have hunlit : ∀ i, i < coords.length → ¬ (i + frame) % coords.length < 20 →
      (snake coords frame tf).get? i = some ((0:ℚ), 0, 0) := by
    intro i hi hw
    rw [snake_get coords frame tf i hi, if_neg hw]
  have hblack : ∀ i, i < coords.length → (i + frame) % coords.length < 20 →
      (snake coords frame tf).get? i ≠ some ((0:ℚ), 0, 0) := by
    intro i hi hw h
    rw [hlit i hi hw] at h
    simp only [Option.some.injEq] at h
    exact colorScale_ne_black (snakeBrightness_ne_zero _ hw) (sat_unit_channel _) h
  refine ⟨?_, fun i hi hw => ⟨hlit i hi hw, hblack i hi hw⟩, ?_, hunlit⟩
  · have hcongr : (Finset.range coords.length).filter
        (fun i => (snake coords frame tf).get? i ≠ some ((0:ℚ), 0, 0))
        = (Finset.range coords.length).filter
            (fun i => (i + frame) % coords.length < 20) := by
      apply Finset.filter_congr
      intro i hi
      simp only [Finset.mem_range] at hi
      constructor
      · intro h
        by_contra hw
        exact h (hunlit i hi hw)
      · intro hw
        simp only [ne_eq, hblack i hi hw, not_false_eq_true]
    rw [hcongr, rot_window_card coords.length frame hN]
  · intro w1 w2 h12 h2
    unfold snakeBrightness
    have : (w1 : ℚ) < (w2 : ℚ) := by exact_mod_cast h12
    linarith

/-- Witness for C6: the one-point cloud lights exactly min 20 1 = 1 point. -/
theorem snake_claim_witness :
    ((Finset.range ([((0:ℚ), 0, 1)] : List Coord).length).filter
        (fun i => (snake [((0:ℚ), 0, 1)] 0 1000).get? i ≠ some ((0:ℚ), 0, 0))).card
      = min 20 ([((0:ℚ), 0, 1)] : List Coord).length :=
  (snake_claim [((0:ℚ), 0, 1)] 0 1000 (by simp)).1

/-! ## Claim C8: twinkle phase assignment -/

/-- C8: the phase-class assignment of twinkle is a deterministic function of
the point count alone (the shuffle is seeded with the constant 42, hence a
fixed function): two clouds with the same point count get the same phase
vector, and for a fixed cloud the frame output factors through the
frame-independent phase vector, so the phase vector is identical across all
frame indices and total frame counts. -/
theorem twinkle_phase_deterministic (s : ℚ → ℚ) (shuffle : List ℕ → List ℕ)
    (c1 c2 : List Coord) (f1 tf1 f2 tf2 : ℕ) (hlen : c1.length = c2.length) :
    twinklePhases shuffle c1.length = twinklePhases shuffle c2.length
    ∧ twinkle s shuffle c1 f1 tf1
        = (twinklePhases shuffle c1.length).map (twinklePointColor s f1 tf1)
    ∧ twinkle s shuffle c1 f2 tf2
        = (twinklePhases shuffle c1.length).map (twinklePointColor s f2 tf2) :=
  ⟨by rw [hlen], rfl, rfl⟩

/-- Witness for C8: two distinct one-point clouds, two distinct frames. -/
theorem twinkle_phase_deterministic_witness :
    twinklePhases id ([((0:ℚ), 0, 1)] : List Coord).length
        = twinklePhases id ([((0:ℚ), 0, 2)] : List Coord).length
    ∧ twinkle (fun _ => 0) id [((0:ℚ), 0, 1)] 0 10
        = (twinklePhases id ([((0:ℚ), 0, 1)] : List Coord).length).map
            (twinklePointColor (fun _ => 0) 0 10)
    ∧ twinkle (fun _ => 0) id [((0:ℚ), 0, 1)] 5 20
        = (twinklePhases id ([((0:ℚ), 0, 1)] : List Coord).length).map
            (twinklePointColor (fun _ => 0) 5 20) :=
  twinkle_phase_deterministic (fun _ => 0) id [((0:ℚ), 0, 1)] [((0:ℚ), 0, 2)]
    0 10 5 20 rfl

/-! ## Claim C9: frame length equals cloud size -/

theorem listMapOption_length {α β : Type} {f : α → Option β} :
    ∀ {l : List α} {l2 : List β}, listMapOption f l = some l2 → l2.length = l.length := by
  intro l
  induction l with
  | nil =>
    intro l2 h
    simp only [listMapOption, Option.some.injEq] at h
    rw [← h]
    rfl
  | cons a rest ih =>
    intro l2 h
    simp only [listMapOption] at h
    cases hfa : f a with
    | none => rw [hfa] at h; simp at h
    | some b =>
      rw [hfa] at h
      cases hrest : listMapOption f rest with
      | none => rw [hrest] at h; simp at h
      | some bs =>
        rw [hrest] at h
        simp only [Option.some.injEq] at h
        rw [← h]
        simp [ih hrest]

/-- C9: every effect returns one color per input point.  The effects that
can panic (fill_up, fall_down, fall_down_rainbow, accelerate, roll_around)
are covered on every input on which they are defined; the total ones
unconditionally.  The shuffle hypothesis states that the rand crate shuffle
is a permutation (it only reorders its input). -/
theorem frame_length_claim (s : ℚ → ℚ) (a2 : ℚ → ℚ → ℚ) (pw : ℚ → ℚ)
    (sc : ℚ → ℚ × ℚ) (shuffle : List ℕ → List ℕ) (coords : List Coord)
    (frame tf : ℕ) (_hne : coords ≠ [])
    (hs : ∀ l : List ℕ, (shuffle l).length = l.length) :
    (barber_pole s a2 coords frame tf).length = coords.length
    ∧ (∀ out, fill_up coords frame tf = some out → out.length = coords.length)
    ∧ (snake coords frame tf).length = coords.length
    ∧ (∀ out, fall_down coords frame tf = some out → out.length = coords.length)
    ∧ (∀ out, fall_down_rainbow coords frame tf = some out →
        out.length = coords.length)
    ∧ (∀ out, accelerate pw coords frame tf = some out →
        out.length = coords.length)
    ∧ (∀ out, roll_around sc coords frame tf = some out →
        out.length = coords.length)
    ∧ (twinkle s shuffle coords frame tf).length = coords.length := by
  refine ⟨?_, ?_, ?_, ?_, ?_, ?_, ?_, ?_⟩
  · simp [barber_pole]
  · intro out h
    simp only [fill_up] at h
    split at h
    · simp at h
    · split at h
      · simp at h
      · simp only [Option.some.injEq] at h
        rw [← h, List.length_map]
  · simp [snake]
  · intro out h
    simp only [fall_down] at h
    obtain ⟨mh, -, hout⟩ := Option.map_eq_some'.mp h
    rw [← hout]
    simp
  · intro out h
    simp only [fall_down_rainbow] at h
    split at h
    · simp at h
    · rw [listMapOption_length h]
  · intro out h
    simp only [accelerate] at h
    obtain ⟨mh, -, hout⟩ := Option.map_eq_some'.mp h
    rw [← hout]
    simp
  · intro out h
    simp only [roll_around] at h
    split at h
    · simp at h
    · obtain ⟨mh, -, hout⟩ := Option.map_eq_some'.mp h
      rw [← hout]
      simp
  · simp [twinkle, hs]

/-- Witness for C9 at the one-point cloud (0,0,1), frame 0, 1000 frames,
with the identity shuffle and zero transcendental models. -/
theorem frame_length_claim_witness :
    (barber_pole (fun _ => 0) (fun _ _ => 0) [((0:ℚ), 0, 1)] 0 1000).length = 1 :=
  (frame_length_claim (fun _ => 0) (fun _ _ => 0) (fun _ => 0) (fun _ => (0, 0))
    id [((0:ℚ), 0, 1)] 0 1000 (by simp) (fun _ => rfl)).1

/-! ## Claim C10: fall_down and fall_down_rainbow agree on unlit points -/

/-- The two duplicated falling-layer loops compute the same base level and
layer band. -/
theorem fdLoop_eq_fdrLoop (mh : ℚ) : ∀ (ls : List ℕ) (sf base : ℚ),
    fdLoop mh ls sf base
      = ((fdrLoop mh ls sf base).1, (fdrLoop mh ls sf base).2.1,
          (fdrLoop mh ls sf base).2.2.1) := by
  intro ls
  induction ls with
  | nil => intro sf base; rfl
  | cons layer rest ih =>
    intro sf base
    simp only [fdLoop, fdrLoop]
    split_ifs with h
    · rfl
    · exact ih _ _

theorem fRem_nonneg_lt (a b : ℚ) (ha : 0 ≤ a) (hb : 0 < b) :
    0 ≤ fRem a b ∧ fRem a b < b := by
  unfold fRem ratTrunc
  rw [if_pos (div_nonneg ha hb.le)]
  have h1 : ((⌊a / b⌋ : ℤ) : ℚ) ≤ a / b := Int.floor_le _
  have h2 : a / b < (⌊a / b⌋ : ℤ) + 1 := Int.lt_floor_add_one _
  have hba : b * (a / b) = a := by field_simp
  constructor
  · have := mul_le_mul_of_nonneg_left h1 hb.le
    linarith
  · have := mul_lt_mul_of_pos_left h2 hb
    have h3 : b * (((⌊a / b⌋ : ℤ) : ℚ) + 1) = b * ((⌊a / b⌋ : ℤ) : ℚ) + b := by ring
    linarith

theorem framesPerCycle_pos (mh : ℚ) (hmh : 0 ≤ mh) : 0 < framesPerCycle mh := by
  have he : framesPerCycle mh = 90 + 110 * mh / 3 := by
    unfold framesPerCycle totalDist layerHeight pauseFrames fallSpeed
    ring
  rw [he]
  linarith

theorem fdScalingFactor_nonneg (mh : ℚ) (tf : ℕ) (hmh : 0 ≤ mh) :
    0 ≤ fdScalingFactor mh tf := by
  unfold fdScalingFactor fdTotalCycles
  apply div_nonneg (framesPerCycle_pos mh hmh).le
  apply div_nonneg (Nat.cast_nonneg tf)
  exact_mod_cast Int.floor_nonneg.mpr
    (div_nonneg (Nat.cast_nonneg tf) (framesPerCycle_pos mh hmh).le)

/-- Loop invariant: the settled base level never exceeds the cloud maximum
(for a nonnegative maximum). -/
theorem fdrLoop_base_le (mh : ℚ) (hmh : 0 ≤ mh) :
    ∀ (ls : List ℕ) (sf base : ℚ), 0 ≤ sf →
      base + layerHeight mh * (ls.length : ℚ) ≤ mh →
      (fdrLoop mh ls sf base).1 ≤ mh := by
  intro ls
  induction ls with
  | nil =>
    intro sf base hsf hbase
    simp only [fdrLoop]
    have hsp : 0 ≤ sf * fallSpeed := mul_nonneg hsf (by norm_num [fallSpeed])
    simp only [List.length_nil, Nat.cast_zero, mul_zero, add_zero] at hbase
    linarith
  | cons layer rest ih =>
    intro sf base hsf hbase
    have hlh : 0 ≤ layerHeight mh := by unfold layerHeight; linarith
    simp only [List.length_cons] at hbase
    push_cast at hbase
    have hsplit : layerHeight mh * ((rest.length : ℚ) + 1)
        = layerHeight mh * (rest.length : ℚ) + layerHeight mh := by ring
    simp only [fdrLoop]
    split_ifs with h
    · have h0 : 0 ≤ layerHeight mh * (rest.length : ℚ) :=
        mul_nonneg hlh (Nat.cast_nonneg _)
      linarith
    · apply ih _ _ (by linarith) (by linarith)

theorem fdrLoop_layer_lt (mh : ℚ) :
    ∀ (ls : List ℕ) (sf base : ℚ), (∀ x ∈ ls, x < 8) →
      (fdrLoop mh ls sf base).2.2.2 < 8 := by
  intro ls
  induction ls with
  | nil => intro sf base _; norm_num [fdrLoop]
  | cons layer rest ih =>
    intro sf base hmem
    simp only [fdrLoop]
    split_ifs with h
    · exact hmem layer (List.mem_cons_self _ _)
    · exact ih _ _ fun x hx => hmem x (List.mem_cons_of_mem _ hx)

/-- Rust cast of the layer quotient stays below 8 for a point strictly below
a level that is at most the (nonnegative) maximum. -/
theorem floatToUsize_layer_lt (mh z : ℚ) (hmh : 0 ≤ mh) (hz : z < mh) :
    floatToUsize (z / layerHeight mh) < 8 := by
  unfold floatToUsize
  split_ifs with h
  · norm_num
  · push_neg at h
    have hlh : layerHeight mh ≠ 0 := by
      intro h0
      rw [h0, div_zero] at h
      exact lt_irrefl 0 h
    have hmh' : 0 < mh := by
      rcases hmh.eq_or_gt with h0 | hpos
      · exfalso
        apply hlh
        subst h0
        unfold layerHeight
        norm_num
      · exact hpos
    have hlh' : 0 < layerHeight mh := div_pos hmh' (by norm_num)
    have hq : z / layerHeight mh < 8 := by
      rw [div_lt_iff₀ hlh']
      unfold layerHeight
      linarith
    have hfl : ⌊z / layerHeight mh⌋ < 8 := Int.floor_lt.mpr (by exact_mod_cast hq)
    omega

/-- The geometry state shared by the two falling effects: the result of the
layer loop on the wrapped scaled frame. -/
def fdState (mh : ℚ) (frame tf : ℕ) : ℚ × ℚ × ℚ × ℕ :=
  fdrLoop mh (List.range 8)
    (fRem ((frame : ℚ) * fdScalingFactor mh tf) (framesPerCycle mh)) 0

/-- The cycle index computed by the two falling effects. -/
def fdCycle (mh : ℚ) (frame tf : ℕ) : ℤ :=
  ⌊((frame : ℚ) * fdScalingFactor mh tf) / framesPerCycle mh⌋

theorem fdState_base_le (mh : ℚ) (frame tf : ℕ) (hmh : 0 ≤ mh) :
    (fdState mh frame tf).1 ≤ mh := by
  unfold fdState
  apply fdrLoop_base_le mh hmh
  · exact (fRem_nonneg_lt _ _
      (mul_nonneg (Nat.cast_nonneg _) (fdScalingFactor_nonneg mh tf hmh))
      (framesPerCycle_pos mh hmh)).1
  · simp only [List.length_range]
    unfold layerHeight
    push_cast
    linarith

theorem fdState_layer_lt (mh : ℚ) (frame tf : ℕ) :
    (fdState mh frame tf).2.2.2 < 8 := by
  unfold fdState
  exact fdrLoop_layer_lt mh _ _ _ fun x hx => List.mem_range.mp hx

theorem colors_get (cyc : ℤ) (idx : ℕ) (hidx : idx < 8) :
    ((List.range 8).map fun (layer : ℕ) =>
        saturated_color (((layer : ℚ) + 8 * (cyc : ℚ)) * (9/20))).get? idx
      = some (saturated_color (((idx : ℚ) + 8 * (cyc : ℚ)) * (9/20))) := by
  rw [List.get?_map, List.get?_range hidx]
  rfl

theorem listMapOption_eq_map {α β : Type} (f : α → Option β) (g : α → β) :
    ∀ l : List α, (∀ a ∈ l, f a = some (g a)) →
      listMapOption f l = some (l.map g) := by
  intro l
  induction l with
  | nil => intro _; rfl
  | cons a rest ih =>
    intro h
    have h1 := h a (List.mem_cons_self a rest)
    have h2 := ih fun x hx => h x (List.mem_cons_of_mem a hx)
    simp only [listMapOption, h1, h2, List.map_cons]

/-- fall_down in closed form over the shared geometry state. -/
theorem fall_down_eq (coords : List Coord) (frame tf : ℕ) (mh : ℚ)
    (hm : maxZ coords = some mh) :
    fall_down coords frame tf
      = some (coords.map fun c =>
          if c.2.2 < (fdState mh frame tf).1
              ∨ ((fdState mh frame tf).2.1 ≤ c.2.2 ∧
                  c.2.2 < (fdState mh frame tf).2.2.1)
          then saturated_color ((fdCycle mh frame tf : ℚ) * (9/20))
          else ((0:ℚ), 0, 0)) := by
  simp only [fall_down, hm, Option.map_some', fdLoop_eq_fdrLoop, fdState, fdCycle]

/-- fall_down_rainbow in closed form over the shared geometry state, defined
whenever the maximum height is nonnegative. -/
theorem fall_down_rainbow_eq (coords : List Coord) (frame tf : ℕ) (mh : ℚ)
    (hm : maxZ coords = some mh) (hmh : 0 ≤ mh) :
    fall_down_rainbow coords frame tf
      = some (coords.map fun c =>
          if c.2.2 < (fdState mh frame tf).1 then
            saturated_color (((floatToUsize (c.2.2 / layerHeight mh) : ℚ)
              + 8 * (fdCycle mh frame tf : ℚ)) * (9/20))
          else if (fdState mh frame tf).2.1 ≤ c.2.2 ∧
              c.2.2 < (fdState mh frame tf).2.2.1 then
            saturated_color ((((fdState mh frame tf).2.2.2 : ℚ)
              + 8 * (fdCycle mh frame tf : ℚ)) * (9/20))
          else ((0:ℚ), 0, 0)) := by
  simp only [fall_down_rainbow, hm]
  apply listMapOption_eq_map
  intro c _
  simp only [fdState, fdCycle]
  by_cases h1 : c.2.2 < (fdrLoop mh (List.range 8)
      (fRem ((frame : ℚ) * fdScalingFactor mh tf) (framesPerCycle mh)) 0).1
  · simp only [if_pos h1]
    exact colors_get _ _ (floatToUsize_layer_lt mh c.2.2 hmh
      (lt_of_lt_of_le h1 (fdState_base_le mh frame tf hmh)))
  · simp only [if_neg h1]
    by_cases h2 : (fdrLoop mh (List.range 8)
        (fRem ((frame : ℚ) * fdScalingFactor mh tf) (framesPerCycle mh)) 0).2.1 ≤ c.2.2 ∧
        c.2.2 < (fdrLoop mh (List.range 8)
          (fRem ((frame : ℚ) * fdScalingFactor mh tf) (framesPerCycle mh)) 0).2.2.1
    · simp only [if_pos h2]
      exact colors_get _ _ (fdState_layer_lt mh frame tf)
    · simp only [if_neg h2]

/-- C10 counterexample: for a cloud whose maximum height is negative the two
effects do not even agree on definedness.  At [(0,0,-1),(0,0,-10)], frame 0
and 1000 total frames (cycle count 18), fall_down lights both points, while
fall_down_rainbow indexes colors[(z / layer_height) as usize] = colors[80]
out of bounds and panics (modelled none). -/
theorem fall_down_rainbow_cex :
    maxZ [((0:ℚ), 0, -1), ((0:ℚ), 0, -10)] = some (-1)
    ∧ 1 ≤ fdTotalCycles (-1) 1000
    ∧ fall_down [((0:ℚ), 0, -1), ((0:ℚ), 0, -10)] 0 1000
        = some [((1:ℚ), 0, 0), ((1:ℚ), 0, 0)]
    ∧ fall_down_rainbow [((0:ℚ), 0, -1), ((0:ℚ), 0, -10)] 0 1000 = none := by
  refine ⟨?_, ?_, ?_, ?_⟩
  · norm_num [maxZ, coordZ]
  · norm_num [fdTotalCycles, framesPerCycle, totalDist, layerHeight, pauseFrames,
      fallSpeed]
  · norm_num [fall_down, maxZ, coordZ, fdScalingFactor, fdTotalCycles,
      framesPerCycle, totalDist, layerHeight, pauseFrames, fallSpeed, fRem,
      ratTrunc, range_eight, fdLoop, saturated_color, rustFract, max_def]
  · norm_num [fall_down_rainbow, maxZ, coordZ, fdScalingFactor, fdTotalCycles,
      framesPerCycle, totalDist, layerHeight, pauseFrames, fallSpeed, fRem,
      ratTrunc, range_eight, fdrLoop, listMapOption, floatToUsize, max_def]
    rfl

/-- C10 (amended): for every non-empty cloud whose maximum height is
nonnegative, every frame index, and every total frame count with cycle count
at least 1, both falling effects are defined and a point is colored (0,0,0)
by fall_down exactly when it is colored (0,0,0) by fall_down_rainbow: the
effects compute the identical base-level and falling-layer geometry, and
their lit colors are saturated hues, never black. -/
theorem fall_down_rainbow_agree (coords : List Coord) (frame tf : ℕ) (mh : ℚ)
    (hm : maxZ coords = some mh) (hmh : 0 ≤ mh)
    (_hcyc : 1 ≤ fdTotalCycles mh tf) :
    ∃ fd fdr, fall_down coords frame tf = some fd
      ∧ fall_down_rainbow coords frame tf = some fdr
      ∧ ∀ i : ℕ, (fd.get? i = some ((0:ℚ), 0, 0) ↔
          fdr.get? i = some ((0:ℚ), 0, 0)) := by
  refine ⟨_, _, fall_down_eq coords frame tf mh hm,
    fall_down_rainbow_eq coords frame tf mh hm hmh, ?_⟩
  intro i
  rw [List.get?_map, List.get?_map]
  cases hci : coords.get? i with
  | none => simp
  | some c =>
    simp only [Option.map_some', Option.some.injEq]
    by_cases h1 : c.2.2 < (fdState mh frame tf).1
    · rw [if_pos (Or.inl h1), if_pos h1]
      exact iff_of_false (sat_ne_black _) (sat_ne_black _)
    · by_cases h2 : (fdState mh frame tf).2.1 ≤ c.2.2 ∧
          c.2.2 < (fdState mh frame tf).2.2.1
      · rw [if_pos (Or.inr h2), if_neg h1, if_pos h2]
        exact iff_of_false (sat_ne_black _) (sat_ne_black _)
      · rw [if_neg (by tauto), if_neg h1, if_neg h2]

/-- Witness for C10 at the cloud [(0,0,1)], frame 0, 1000 total frames. -/
theorem fall_down_rainbow_agree_witness :
    ∃ fd fdr, fall_down [((0:ℚ), 0, 1)] 0 1000 = some fd
      ∧ fall_down_rainbow [((0:ℚ), 0, 1)] 0 1000 = some fdr
      ∧ ∀ i : ℕ, (fd.get? i = some ((0:ℚ), 0, 0) ↔
          fdr.get? i = some ((0:ℚ), 0, 0)) :=
  fall_down_rainbow_agree [((0:ℚ), 0, 1)] 0 1000 1
    (by norm_num [maxZ, coordZ]) (by norm_num)
    (by norm_num [fdTotalCycles, framesPerCycle, totalDist, layerHeight,
      pauseFrames, fallSpeed])

/-- Witness for C1 at total_frames = 480. -/
theorem roll_around_loop_closure_witness :
    (480 ∣ 480 ∧ 0 < 480)
    ∧ roll_around (fun _ => ((0:ℚ), (0:ℚ))) [((0:ℚ), 0, 1)] 480 480
        = roll_around (fun _ => ((0:ℚ), (0:ℚ))) [((0:ℚ), 0, 1)] 0 480 :=
  ⟨⟨dvd_refl 480, by norm_num⟩,
    roll_around_loop_closure _ _ 480 (dvd_refl 480) (by norm_num)⟩
